import Mathlib

/-!
Verification of the etfperformance repository's enrichment-and-forecasting
pipeline against its design specification.

The development shallowly embeds the pipeline of `main.py` (portfolio
normalization, per-instrument enrichment, SARIMA forecasting loop, horizon
extraction, prediction merge, aggregation) and the monthly variant of
`src/prediction.py`.  Prices are modelled as rationals; dates as natural
numbers (day, respectively month, counts); Python exceptions as `Except`
errors.  Purely numeric external routines (the SARIMAX optimizer, yfinance
lookups, the floating-point volatility computation) are modelled as oracle
parameters, since the repository treats them as opaque external calls.
-/

namespace ETFPerf

/-- A raised Python exception, as observed at the boundaries the pipeline
code can hit: positional indexing out of range (`IndexError` from
`.iloc[...]`), a failure inside the external model fit, and a failure of an
external data fetch. -/
inductive PyErr
  | indexError
  | fitError
  | fetchError
deriving DecidableEq, Repr

/-- Decidable equality of raised-or-returned results, so that concrete
pipeline runs can be checked by evaluation. -/
instance {α : Type} [DecidableEq α] : DecidableEq (Except PyErr α) := fun a b =>
  match a, b with
  | .ok x, .ok y => decidable_of_iff (x = y) (by simp)
  | .error e, .error f => decidable_of_iff (e = f) (by simp)
  | .ok _, .error _ => isFalse (by simp)
  | .error _, .ok _ => isFalse (by simp)

/-- Python positional index resolution: a negative index counts from the
end of a sequence of the given length. -/
def pyIndex (len : ℕ) (i : ℤ) : ℤ :=
  if i < 0 then i + len else i

/-- Pandas positional indexing `series.iloc[i]` on a one-dimensional series:
a negative index counts from the end; an index out of range raises
`IndexError`.  The guard guarantees the resolved index is in range, so the
`getD` default is never reached. -/
def iloc (l : List ℚ) (i : ℤ) : Except PyErr ℚ :=
  if 0 ≤ pyIndex l.length i ∧ pyIndex l.length i < (l.length : ℤ) then
    .ok (l.getD (pyIndex l.length i).toNat 0)
  else
    .error .indexError

/-- Horizon extraction as performed in `predict_portfolio` of `main.py`:
`forecast.iloc[int(y * periodsPerYear) - 1]`.  `main.py` instantiates
`periodsPerYear` with 365 (daily steps); the monthly pipeline variant uses
12 periods per year.  For a natural-number horizon `y` the Python
`int(y * periodsPerYear)` is exact, so the requested offset is
`y * periodsPerYear - 1`. -/
def extractHorizon (periodsPerYear : ℕ) (forecast : List ℚ) (y : ℕ) :
    Except PyErr ℚ :=
  iloc forecast ((y * periodsPerYear : ℕ) - 1 : ℤ)

/-- One row of the input holdings table: the symbol and the quantity held.
Pass-through columns are irrelevant to the verified properties and are
omitted. -/
structure Holding where
  symbol : String
  quantity : ℚ
deriving DecidableEq, Repr

/-- The holdings table as read from CSV: its rows plus the optional
`Weight` column (`none` models the column being absent). -/
structure Portfolio where
  rows : List Holding
  weightCol : Option (List ℚ)
deriving DecidableEq, Repr

/-- `read_and_normalize_portfolio` of `main.py`: when a `Weight` column is
present, every weight is divided by the column's sum; otherwise the table
is returned as read. -/
def readAndNormalizePortfolio (p : Portfolio) : Portfolio :=
  match p.weightCol with
  | none => p
  | some ws => { p with weightCol := some (ws.map (fun w => w / ws.sum)) }

/-- A concrete forecast sequence whose entry at zero-based offset `k` is
the rational number `k`, used to pin extraction offsets in witnesses. -/
def rampForecast (n : ℕ) : List ℚ :=
  (List.range n).map (fun k : ℕ => (k : ℚ))

/-- The enrichment metrics written into the holdings table by
`fetch_and_enrich_etf_data`: `Last_Close` (equal to the `Current Price`
column, which the code sets to the same value), `MA50` (`none` models the
`NaN` a 50-period rolling mean produces on fewer than 50 observations),
`Volatility`, `Expense_Ratio` and the instrument's native `Currency`. -/
structure Metrics where
  lastClose : ℚ
  ma50 : Option ℚ
  volatility : ℚ
  expenseRatio : ℚ
  currency : String
deriving DecidableEq, Repr

/-- Oracles for the external calls the pipeline makes.  `history` models
`yf.Ticker(t).history(period='ytd')['Close']` as a list of (day, close)
pairs with strictly increasing days; `currencyOf` models
`etf.info.get('currency', 'USD')` (the code supplies the default, so the
oracle is total); `expenseOf` models `etf.info.get('expenseRatio', 0)`;
`fxClose` models `yf.Ticker(fxt).history(period='1d')['Close'].iloc[-1]`
for an FX ticker `fxt`, which either yields a spot rate or raises;
`vol` models `pct_change().dropna().std() * sqrt(252)`, an irrational
floating-point computation the design treats as an opaque numeric
routine. -/
structure Market where
  history : String → List (ℕ × ℚ)
  currencyOf : String → String
  expenseOf : String → ℚ
  fxClose : String → Except PyErr ℚ
  vol : List ℚ → ℚ

/-- The currency-conversion block of `fetch_and_enrich_etf_data`: when the
native currency differs from USD, the code builds the FX ticker
`f"{currency}USD=X"`, fetches its last close inside a `try`, and multiplies
`last_close` and `ma50` by the rate; any exception is caught and the
original values are kept (with a printed warning).  The second component
records which external FX tickers were queried. -/
def applyFx (fx : String → Except PyErr ℚ) (currency : String)
    (lastClose : ℚ) (ma50 : Option ℚ) : (ℚ × Option ℚ) × List String :=
  if currency = "USD" then
    ((lastClose, ma50), [])
  else
    match fx (currency ++ "USD=X") with
    | .ok r => ((lastClose * r, ma50.map (fun m => m * r)), [currency ++ "USD=X"])
    | .error _ => ((lastClose, ma50), [currency ++ "USD=X"])

/-- The per-ticker body of the loop in `fetch_and_enrich_etf_data`:
`last_close = data['Close'].iloc[-1]` (raises `IndexError` on an empty
history), `ma50 = rolling(50).mean().iloc[-1]` (`NaN` below 50
observations, otherwise the mean of the trailing 50 closes), the
volatility and expense-ratio lookups, and the USD conversion of
`last_close` and `ma50`. -/
def computeMetrics (m : Market) (ticker : String) : Except PyErr Metrics := do
  let closes := (m.history ticker).map Prod.snd
  let lastClose ← iloc closes (-1)
  let ma50 : Option ℚ :=
    if closes.length < 50 then none
    else some ((closes.drop (closes.length - 50)).sum / 50)
  let c := m.currencyOf ticker
  let conv := (applyFx m.fxClose c lastClose ma50).1
  pure { lastClose := conv.1, ma50 := conv.2, volatility := m.vol closes,
         expenseRatio := m.expenseOf ticker, currency := c }

/-- One row of the holdings DataFrame during a run: the original holding
columns plus the enrichment columns, which are `none` until (and unless)
`fetch_and_enrich_etf_data` writes them. -/
structure PRow where
  holding : Holding
  metrics : Option Metrics
deriving DecidableEq, Repr

/-- The masked assignment `portfolio.loc[portfolio['Symbol'] == ticker,
col] = value`: every row whose symbol equals the ticker receives the
metric values. -/
def maskWrite (t : List PRow) (s : String) (mx : Metrics) : List PRow :=
  t.map (fun r => if r.holding.symbol = s then { r with metrics := some mx } else r)

/-- The row loop of `fetch_and_enrich_etf_data`, processing the table's
symbols in row order; a raised exception aborts the whole loop. -/
def enrichGo (m : Market) : List String → List PRow → Except PyErr (List PRow)
  | [], t => .ok t
  | s :: syms, t => do
      let mx ← computeMetrics m s
      enrichGo m syms (maskWrite t s mx)

/-- The `etf_data` dictionary built by `fetch_and_enrich_etf_data`: each
processed ticker maps to its fetched close series (repeated tickers store
the same series, the history lookup being a function of the ticker). -/
def buildStore (m : Market) (syms : List String) : List (String × List (ℕ × ℚ)) :=
  syms.map (fun s => (s, m.history s))

/-- `fetch_and_enrich_etf_data`: iterates over the holdings rows, fills the
`etf_data` store and writes the enrichment columns into the received table;
an exception raised for any row propagates and aborts the whole call. -/
def fetchAndEnrich (m : Market) (t : List PRow) :
    Except PyErr (List PRow × List (String × List (ℕ × ℚ))) := do
  let t' ← enrichGo m (t.map (fun r => r.holding.symbol)) t
  pure (t', buildStore m (t.map (fun r => r.holding.symbol)))

/-- The `asfreq('D')` + `fillna(method='ffill')` preprocessing of
`predict_sarima`: the series is realigned to a daily grid spanning its
first through last observation day, a gap day carrying the last observed
value forward.  The series' days are strictly increasing (the PriceSeries
invariant), so the value at grid day `g` is the close of the latest
observation at or before `g`. -/
def resampleDaily (series : List (ℕ × ℚ)) : List ℚ :=
  match series with
  | [] => []
  | (d0, v0) :: rest =>
      (List.range ((((d0, v0) :: rest).getLastD (d0, v0)).1 - d0 + 1)).map
        (fun k =>
          ((((d0, v0) :: rest).filter (fun q => q.1 ≤ d0 + k)).getLastD (d0, v0)).2)

/-- `predict_sarima` of `main.py`: converts the index to datetime (the
identity on the already-datetime index the fetch step produces), resamples
to a forward-filled daily grid, fits the SARIMAX(1,1,1)x(1,1,1,12) model
and forecasts `steps` values.  The model fit and forecast are the external
numeric routine, passed in as the `fit` oracle; the code performs no
validation of the series before handing it to the fit. -/
def predictSarima (fit : List ℚ → ℕ → Except PyErr (List ℚ))
    (series : List (ℕ × ℚ)) (steps : ℕ) : Except PyErr (List ℚ) :=
  fit (resampleDaily series) steps

/-- The module constant `YEARS_TO_PREDICT = [1, 5]` of `main.py`. -/
def yearsToPredict : List ℕ := [1, 5]

/-- One entry of the `predictions` list built by `predict_portfolio`: the
originating row index, the symbol, the `today` value and the per-horizon
forecast values. -/
structure Pred where
  index : ℕ
  symbol : String
  today : ℚ
  horizons : List (ℕ × ℚ)
deriving DecidableEq, Repr

/-- The currency-conversion block of `predict_portfolio`: for a non-USD
instrument the FX rate is fetched inside a `try` and `today` and every
horizon value are multiplied by it; on any exception the original values
are kept.  The second component records the external FX tickers queried. -/
def convertPreds (fx : String → Except PyErr ℚ) (c : String)
    (today : ℚ) (vals : List ℚ) : (ℚ × List ℚ) × List String :=
  if c = "USD" then
    ((today, vals), [])
  else
    match fx (c ++ "USD=X") with
    | .ok r => ((today * r, vals.map (fun v => v * r)), [c ++ "USD=X"])
    | .error _ => ((today, vals), [c ++ "USD=X"])

/-- The row loop of `predict_portfolio`, carried out at explicit row index
`i`: a ticker absent from `etf_data` is skipped (its row produces no
predictions entry); otherwise the series is fitted and forecast, `today`
is read off the stored series, each year in `YEARS_TO_PREDICT` is
extracted at daily offset `int(y * 365) - 1`, and the values are converted
to USD if needed.  Any exception from the fit or the extractions
propagates and aborts the loop. -/
def predGo (m : Market) (fit : List ℚ → ℕ → Except PyErr (List ℚ))
    (store : List (String × List (ℕ × ℚ))) (years : ℕ) :
    ℕ → List PRow → Except PyErr (List Pred)
  | _, [] => .ok []
  | i, r :: rest =>
    match (store.find? (fun e => e.1 == r.holding.symbol)).map Prod.snd with
    | none => predGo m fit store years (i + 1) rest
    | some series => do
        let f ← predictSarima fit series (years * 365)
        let today ← iloc (series.map Prod.snd) (-1)
        let vals ← yearsToPredict.mapM (fun y => extractHorizon 365 f y)
        let conv := (convertPreds m.fxClose (m.currencyOf r.holding.symbol) today vals).1
        let preds ← predGo m fit store years (i + 1) rest
        .ok (⟨i, r.holding.symbol, conv.1, yearsToPredict.zip conv.2⟩ :: preds)

/-- `predict_portfolio` of `main.py`, with `steps = int(years * 365)`. -/
def predictPortfolio (m : Market) (fit : List ℚ → ℕ → Except PyErr (List ℚ))
    (store : List (String × List (ℕ × ℚ))) (rows : List PRow) (years : ℕ) :
    Except PyErr (List Pred) :=
  predGo m fit store years 0 rows

/-- One row of the merged predictions table written by `save_predictions`:
all holdings columns plus `today` and the `"<N> years"` columns, which are
`NaN` (`none`) for rows without a matching predictions entry. -/
structure OutRow where
  row : PRow
  today : Option ℚ
  horizons : List (ℕ × Option ℚ)
deriving DecidableEq, Repr

/-- The merge of one holdings row at positional index `i` with the
predictions list, on `left_index=True, right_on='Index', how='left'`: the
predictions entry whose `Index` equals `i` supplies the forecast columns
(`predict_portfolio` emits at most one entry per index), and a row without
a match keeps all its columns with null forecast fields. -/
def mkOut (preds : List Pred) (i : ℕ) (r : PRow) : OutRow :=
  match preds.find? (fun p => p.index == i) with
  | some p => ⟨r, some p.today, p.horizons.map (fun yv => (yv.1, some yv.2))⟩
  | none => ⟨r, none, yearsToPredict.map (fun y => (y, none))⟩

/-- The row-wise traversal underlying the `save_predictions` merge. -/
def saveGo (preds : List Pred) : ℕ → List PRow → List OutRow
  | _, [] => []
  | i, r :: rest => mkOut preds i r :: saveGo preds (i + 1) rest

/-- `save_predictions` of `main.py`: left-merges the holdings table with
the predictions on the row's positional index, keeping every holdings row
(repeated tickers included). -/
def savePredictions (rows : List PRow) (preds : List Pred) : List OutRow :=
  saveGo preds 0 rows

/-- One row of the predictions CSV as re-read by `visualize_statistics`:
symbol, quantity, the `today` price and the `1 years` / `5 years`
forecast prices. -/
structure PredRow where
  symbol : String
  quantity : ℚ
  today : ℚ
  y1 : ℚ
  y5 : ℚ
deriving DecidableEq, Repr

/-- The `Total Today` column added by `visualize_statistics`:
`Quantity * today` per row. -/
def totalToday (r : PredRow) : ℚ :=
  r.quantity * r.today

/-- The `Total 1 years` column added by `visualize_statistics`. -/
def totalYears1 (r : PredRow) : ℚ :=
  r.quantity * r.y1

/-- The `Total 5 years` column added by `visualize_statistics`. -/
def totalYears5 (r : PredRow) : ℚ :=
  r.quantity * r.y5

/-- The `groupby('Symbol').agg(sum)` step of `visualize_statistics`: one
entry per distinct symbol, holding the sum of a total-value column over
the rows carrying that symbol. -/
def groupedCol (rows : List PredRow) (f : PredRow → ℚ) : List ℚ :=
  ((rows.map PredRow.symbol).dedup).map
    (fun s => ((rows.filter (fun r => r.symbol == s)).map f).sum)

/-- The whole-portfolio `Total` row `table_data.sum()` of
`visualize_statistics`: the sum of a total-value column over the grouped
per-symbol table. -/
def grandTotal (rows : List PredRow) (f : PredRow → ℚ) : ℚ :=
  (groupedCol rows f).sum

/-- The column filter of `predict_future_prices` in `src/prediction.py`:
derived columns (named with the `_Return`, `_Volatility` or `_MA50`
suffixes) are not forecast. -/
def isDerivedCol (s : String) : Bool :=
  s.endsWith "_Return" || s.endsWith "_Volatility" || s.endsWith "_MA50"

/-- The monthly DataFrame handed to `predict_future_prices`: a shared
index of month numbers on the `MS` grid `read_from_csv` produces (strictly
increasing, consecutive), and one price column per ticker. -/
structure MonthlyDF where
  index : List ℕ
  cols : List (String × List ℚ)
deriving Repr

/-- `predict_future_prices` of `src/prediction.py`: builds
`future_index = date_range(start=df.index[-1], periods=horizon*12+1,
freq='MS')` — month numbers `last, last+1, ..., last+12*horizon` — and,
for each non-derived column, assigns the external SARIMA forecast of
`horizon*12` steps into that frame by date alignment.  The model's
forecast index starts one month after the last observation, so the frame
cell at the last observed month (offset 0) matches no forecast date and
stays `NaN` (`none`), while the cell at offset `k ≥ 1` receives the
forecast's `(k-1)`-th value. -/
def predictFuturePrices (fit : List ℚ → ℕ → List ℚ) (df : MonthlyDF)
    (horizon : ℕ) : List ℕ × List (String × List (Option ℚ)) :=
  (
    (List.range (horizon * 12 + 1)).map (fun k => df.index.getLastD 0 + k),
    (df.cols.filter (fun c => !isDerivedCol c.1)).map (fun c =>
      (c.1,
        (List.range (horizon * 12 + 1)).map
          (fun k => if k = 0 then none else (fit c.2 (horizon * 12))[k - 1]?)))
  )

/-- A possible behaviour of the external SARIMA fit: forecast the last
resampled value at every requested step.  Used to exhibit runs of the
unguarded fitting code on short series. -/
def naiveFit : List ℚ → ℕ → Except PyErr (List ℚ) :=
  fun s n => .ok (List.replicate n (s.getLastD 0))

/-- A total fit oracle returning a constant forecast, for the monthly
variant and for pipeline witnesses. -/
def constFit (v : ℚ) : List ℚ → ℕ → Except PyErr (List ℚ) :=
  fun _ n => .ok (List.replicate n v)

/-- A price series of 10 observations (days 0..9, all closing at 1) —
fewer than the 24 observations two annual seasonal cycles require. -/
def shortSeries : List (ℕ × ℚ) :=
  (List.range 10).map (fun k : ℕ => ((k, 1) : ℕ × ℚ))

/-- Market fixture for the mutation counterexample: one instrument with a
one-observation USD history. -/
def mutMarket : Market :=
  ⟨fun _ => [(0, 100)], fun _ => "USD", fun _ => 0, fun _ => .ok 1, fun _ => 0⟩

/-- A one-row holdings table, unenriched, as received from ingestion. -/
def mutTable : List PRow :=
  [⟨⟨"SPY", 1⟩, none⟩]

/-- Market fixture for the abort counterexample: the history fetch for
"AAA" comes back empty (the `DataUnavailable` case) while "BBB" has
data. -/
def abortMarket : Market :=
  ⟨fun s => if s = "AAA" then [] else [(0, 4)], fun _ => "USD", fun _ => 0,
    fun _ => .ok 1, fun _ => 0⟩

/-- A two-row holdings table with distinct symbols, unenriched. -/
def twoRowTable : List PRow :=
  [⟨⟨"AAA", 1⟩, none⟩, ⟨⟨"BBB", 2⟩, none⟩]

/-- A series store containing only "BBB", as used to witness isolation of
a symbol missing from `etf_data`. -/
def oneStore : List (String × List (ℕ × ℚ)) :=
  [("BBB", [(0, 4)])]

/-- Market fixture for the duplicate-symbol scenario (all USD, constant
histories). -/
def dupMarket : Market :=
  ⟨fun _ => [(0, 4)], fun _ => "USD", fun _ => 0, fun _ => .ok 1, fun _ => 0⟩

/-- The duplicate-symbol holdings table: two "AAA" lots and one "BBB". -/
def dupTable : List PRow :=
  [⟨⟨"AAA", 10⟩, none⟩, ⟨⟨"AAA", 5⟩, none⟩, ⟨⟨"BBB", 20⟩, none⟩]

/-- The metrics the duplicate-symbol fixture computes for every symbol
(one observation closing at 4, USD, zero volatility oracle). -/
def dupMetrics : Metrics :=
  ⟨4, none, 0, 0, "USD"⟩

/-- The duplicate-symbol table after enrichment. -/
def dupEnriched : List PRow :=
  [⟨⟨"AAA", 10⟩, some dupMetrics⟩, ⟨⟨"AAA", 5⟩, some dupMetrics⟩,
   ⟨⟨"BBB", 20⟩, some dupMetrics⟩]

/-- The series store the duplicate-symbol fixture builds. -/
def dupStore : List (String × List (ℕ × ℚ)) :=
  buildStore dupMarket (dupTable.map (fun r => r.holding.symbol))

/-- The predictions the duplicate-symbol fixture produces under a constant
forecast of 2: one entry per row index, duplicates not merged. -/
def dupPreds : List Pred :=
  [⟨0, "AAA", 4, [(1, 2), (5, 2)]⟩, ⟨1, "AAA", 4, [(1, 2), (5, 2)]⟩,
   ⟨2, "BBB", 4, [(1, 2), (5, 2)]⟩]

/-- A three-month monthly DataFrame with one price column. -/
def monthlyDF : MonthlyDF :=
  ⟨[0, 1, 2], [("SPY", [1, 2, 3])]⟩

/-- A total constant forecast for the monthly variant's fit routine. -/
def monthlyFit : List ℚ → ℕ → List ℚ :=
  fun _ n => List.replicate n 2

/-- A concrete predictions table with a repeated symbol, for the
aggregation witness. -/
def aggRows : List PredRow :=
  [⟨"AAA", 2, 10, 11, 12⟩, ⟨"AAA", 3, 10, 11, 12⟩, ⟨"BBB", 1, 5, 6, 7⟩]

/-- Reduction of an `Except` bind on a success value. -/
theorem except_ok_bind {α β : Type} (a : α) (f : α → Except PyErr β) :
    (Except.ok a : Except PyErr α) >>= f = f a := rfl

/-- Reduction of an `Except` bind on a raised error. -/
theorem except_error_bind {α β : Type} (e : PyErr) (f : α → Except PyErr β) :
    (Except.error e : Except PyErr α) >>= f = Except.error e := rfl

/-- C1: for horizons of at least one full period, the extractor returns the
forecast entry at zero-based offset `y * periodsPerYear - 1` (which equals
`round(y * periodsPerYear) - 1`, the rounding being exact for year-count
horizons) whenever that offset is within the forecast, and raises the
out-of-range `IndexError` (the code's manifestation of `HorizonOutOfRange`)
whenever the offset is not less than the forecast's length. -/
theorem extractHorizon_offset (f : List ℚ) (y p : ℕ) (h1 : 1 ≤ y * p) :
    (y * p - 1 < f.length →
        extractHorizon p f y = .ok (f.getD (y * p - 1) 0))
    ∧ (f.length ≤ y * p - 1 → extractHorizon p f y = .error .indexError) := by
  have hpy : pyIndex f.length ((y * p : ℕ) - 1 : ℤ) = ((y * p : ℕ) - 1 : ℤ) := by
    unfold pyIndex
    rw [if_neg (by omega)]
  constructor
  · intro hlt
    unfold extractHorizon iloc
    rw [hpy, if_pos (by omega)]
    have htn : (((y * p : ℕ) : ℤ) - 1).toNat = y * p - 1 := by omega
    rw [htn]
  · intro hge
    unfold extractHorizon iloc
    rw [hpy, if_neg (by omega)]

/-- C1 witness: horizon 5 years at 12 periods per year on a forecast of
length 180 returns the entry at zero-based offset 59 (here the forecast at
offset `k` carries the value `k`). -/
theorem extractHorizon_offset_witness :
    extractHorizon 12 (rampForecast 180) 5 = .ok 59 := by
  have h := (extractHorizon_offset (rampForecast 180) 5 12 (by norm_num)).1
      (by simp [rampForecast])
  rw [h]
  norm_num [rampForecast, List.getD, List.getElem?_map, List.getElem?_range]

/-- C6 counterexample: a holdings table whose `Weight` column is present
but sums to zero (a single zero weight).  Normalization divides by the zero
sum, and the resulting weights do not sum to 1 (in pandas the entries are
`NaN`; in the rational model the division yields 0). -/
theorem weight_normalization_cex :
    ((readAndNormalizePortfolio ⟨[⟨"AAA", 1⟩], some [0]⟩).weightCol.getD []).sum ≠ 1 := by
  norm_num [readAndNormalizePortfolio]

/-- C6 (amended): if the `Weight` column is present and its sum is nonzero,
normalization rescales it to sum exactly to 1; a table without a `Weight`
column is returned unchanged. -/
theorem weight_normalization (p : Portfolio) :
    (∀ ws, p.weightCol = some ws → ws.sum ≠ 0 →
        (readAndNormalizePortfolio p).weightCol = some (ws.map (fun w => w / ws.sum))
        ∧ (ws.map (fun w => w / ws.sum)).sum = 1)
    ∧ (p.weightCol = none → readAndNormalizePortfolio p = p) := by
  have key : ∀ (l : List ℚ) (s : ℚ), (l.map (fun w => w / s)).sum = l.sum / s := by
    intro l s
    induction l with
    | nil => simp
    | cons a t ih => simp [ih, add_div]
  constructor
  · intro ws hws hsum
    refine ⟨?_, ?_⟩
    · unfold readAndNormalizePortfolio
      rw [hws]
    · rw [key, div_self hsum]
  · intro hnone
    unfold readAndNormalizePortfolio
    rw [hnone]

/-- C6 witness: the three-row scenario with weights 1/2, 1/4, 1/4 (already
summing to 1) is left numerically unchanged by normalization. -/
theorem weight_normalization_witness :
    (readAndNormalizePortfolio
        ⟨[⟨"AAA", 10⟩, ⟨"AAA", 5⟩, ⟨"BBB", 20⟩], some [1/2, 1/4, 1/4]⟩).weightCol
      = some [1/2, 1/4, 1/4] := by
  have h := (weight_normalization
      ⟨[⟨"AAA", 10⟩, ⟨"AAA", 5⟩, ⟨"BBB", 20⟩], some [1/2, 1/4, 1/4]⟩).1
      [1/2, 1/4, 1/4] rfl (by norm_num)
  rw [h.1]
  norm_num

/-- C7: in both conversion sites (the enrichment step and the prediction
step), converting amounts whose currency is already the base currency USD
returns them exactly unchanged, and the list of external FX lookups
performed is empty — the same-currency fast path does not consult the rate
oracle at all. -/
theorem same_currency_fast_path (fx : String → Except PyErr ℚ) (c : String)
    (x : ℚ) (ma : Option ℚ) (vals : List ℚ) (hc : c = "USD") :
    applyFx fx c x ma = ((x, ma), [])
    ∧ convertPreds fx c x vals = ((x, vals), []) := by
  subst hc
  unfold applyFx convertPreds
  simp

/-- C7 witness: a USD amount of 100 is returned unchanged with zero FX
lookups at both conversion sites, even under an oracle that would fail if
it were ever consulted. -/
theorem same_currency_fast_path_witness :
    applyFx (fun _ => .error .fetchError) "USD" 100 (some 50) = ((100, some 50), [])
    ∧ convertPreds (fun _ => .error .fetchError) "USD" 100 [7, 8] = ((100, [7, 8]), []) :=
  same_currency_fast_path (fun _ => .error .fetchError) "USD" 100 (some 50) [7, 8] rfl

/-- C4: for a non-base-currency instrument, a failed spot-rate lookup is
recovered by keeping the unconverted values (at both conversion sites),
a successful lookup multiplies the values by the rate, and the `Currency`
written into the enriched row is always the instrument's native currency,
letting a consumer see that the instrument is priced in a non-base
currency. -/
theorem rate_fallback_and_currency (fxe fxo : String → Except PyErr ℚ)
    (c : String) (lc : ℚ) (ma : Option ℚ) (vals : List ℚ) (e : PyErr) (r : ℚ)
    (m : Market) (tk : String) (mx : Metrics)
    (hc : c ≠ "USD")
    (he : fxe (c ++ "USD=X") = .error e)
    (ho : fxo (c ++ "USD=X") = .ok r)
    (hok : computeMetrics m tk = .ok mx) :
    (applyFx fxe c lc ma).1 = (lc, ma)
    ∧ (convertPreds fxe c lc vals).1 = (lc, vals)
    ∧ (applyFx fxo c lc ma).1 = (lc * r, ma.map (fun v => v * r))
    ∧ mx.currency = m.currencyOf tk := by
  refine ⟨?_, ?_, ?_, ?_⟩
  · unfold applyFx
    rw [if_neg hc, he]
  · unfold convertPreds
    rw [if_neg hc, he]
  · unfold applyFx
    rw [if_neg hc, ho]
  · cases hil : iloc ((m.history tk).map Prod.snd) (-1) with
    | error err =>
        simp only [computeMetrics, hil, except_error_bind] at hok
        exact absurd hok (by simp)
    | ok lc0 =>
        simp only [computeMetrics, hil, except_ok_bind, pure, Except.pure,
          Except.ok.injEq] at hok
        rw [← hok]

/-- C4 witness: an instrument priced in EUR with last close 100 under a
spot rate of 1.10 is converted to 110, a failed lookup leaves 100 in
place, and the enriched `Currency` field carries "EUR". -/
theorem rate_fallback_and_currency_witness :
    (applyFx (fun _ => .error .fetchError) "EUR" 100 none).1 = (100, none)
    ∧ (convertPreds (fun _ => .error .fetchError) "EUR" 100 [100]).1 = (100, [100])
    ∧ (applyFx (fun _ => .ok (11/10)) "EUR" 100 none).1 = (110, none)
    ∧ ({ lastClose := 100, ma50 := none, volatility := 0, expenseRatio := 0,
         currency := "EUR" } : Metrics).currency =
        (Market.mk (fun _ => [(0, 100)]) (fun _ => "EUR") (fun _ => 0)
          (fun _ => .error .fetchError) (fun _ => 0)).currencyOf "T" := by
  have h := rate_fallback_and_currency (fun _ => .error .fetchError)
      (fun _ => .ok (11/10)) "EUR" 100 none [100] .fetchError (11/10)
      (Market.mk (fun _ => [(0, 100)]) (fun _ => "EUR") (fun _ => 0)
        (fun _ => .error .fetchError) (fun _ => 0)) "T"
      { lastClose := 100, ma50 := none, volatility := 0, expenseRatio := 0,
        currency := "EUR" }
      (by simp) rfl rfl (by rfl)
  refine ⟨h.1, h.2.1, ?_, h.2.2.2⟩
  have h3 := h.2.2.1
  rw [h3]
  norm_num

/-- Updating the metrics cells of a row leaves the holding columns as they
were. -/
theorem metricsUpdate_holding (r : PRow) (x : Option Metrics) :
    ({ r with metrics := x } : PRow).holding = r.holding := rfl

/-- Pointwise description of the masked assignment. -/
theorem maskWrite_getElem? (t : List PRow) (s : String) (mx : Metrics) (i : ℕ) :
    (maskWrite t s mx)[i]? = (t[i]?).map
      (fun r => if r.holding.symbol = s then { r with metrics := some mx } else r) := by
  unfold maskWrite
  exact List.getElem?_map _ t i

/-- Length preservation of the masked assignment. -/
theorem maskWrite_length (t : List PRow) (s : String) (mx : Metrics) :
    (maskWrite t s mx).length = t.length := by
  unfold maskWrite
  exact List.length_map t _

/-- After a successful enrichment pass over `syms`, each row is unchanged
except that a row whose symbol occurs in `syms` carries exactly the
metrics computed for its symbol (a pure function of the symbol, so later
duplicate passes rewrite the same values). -/
theorem enrichGo_getElem? (m : Market) :
    ∀ (syms : List String) (t t' : List PRow),
      enrichGo m syms t = .ok t' →
      ∀ i : ℕ, t'[i]? = (t[i]?).map (fun r =>
        if r.holding.symbol ∈ syms then
          { r with metrics := (computeMetrics m r.holding.symbol).toOption }
        else r) := by
  intro syms
  induction syms with
  | nil =>
      intro t t' h i
      simp only [enrichGo] at h
      cases h
      simp
  | cons s syms ih =>
      intro t t' h i
      simp only [enrichGo] at h
      cases hcm : computeMetrics m s with
      | error e =>
          rw [hcm] at h
          simp only [except_error_bind] at h
          exact absurd h (by simp)
      | ok mx =>
          rw [hcm] at h
          simp only [except_ok_bind] at h
          rw [ih (maskWrite t s mx) t' h i, maskWrite_getElem?, Option.map_map]
          cases hti : t[i]? with
          | none => rfl
          | some r =>
              simp only [Option.map_some', Function.comp_apply, Option.some.injEq]
              by_cases hs : r.holding.symbol = s
              · rw [if_pos hs]
                by_cases hm : r.holding.symbol ∈ syms
                · simp [metricsUpdate_holding, hm, hs, hcm, Except.toOption]
                · simp [metricsUpdate_holding, hm, hs, hcm, Except.toOption]
              · rw [if_neg hs]
                by_cases hm : r.holding.symbol ∈ syms
                · simp [hm, hs]
                · simp [hm, hs]

/-- A successful enrichment pass preserves the number of table rows. -/
theorem enrichGo_length (m : Market) :
    ∀ (syms : List String) (t t' : List PRow),
      enrichGo m syms t = .ok t' → t'.length = t.length := by
  intro syms
  induction syms with
  | nil =>
      intro t t' h
      simp only [enrichGo] at h
      cases h
      rfl
  | cons s syms ih =>
      intro t t' h
      simp only [enrichGo] at h
      cases hcm : computeMetrics m s with
      | error e =>
          rw [hcm] at h
          simp only [except_error_bind] at h
          exact absurd h (by simp)
      | ok mx =>
          rw [hcm] at h
          simp only [except_ok_bind] at h
          rw [ih _ _ h, maskWrite_length]

/-- Destructuring a successful `fetch_and_enrich_etf_data` call into its
enrichment pass and its store. -/
theorem fetchAndEnrich_ok (m : Market) (t t' : List PRow)
    (store : List (String × List (ℕ × ℚ)))
    (h : fetchAndEnrich m t = .ok (t', store)) :
    enrichGo m (t.map (fun r => r.holding.symbol)) t = .ok t'
    ∧ store = buildStore m (t.map (fun r => r.holding.symbol)) := by
  unfold fetchAndEnrich at h
  cases he : enrichGo m (t.map (fun r => r.holding.symbol)) t with
  | error e =>
      rw [he] at h
      simp only [except_error_bind] at h
      exact absurd h (by simp)
  | ok t0 =>
      rw [he] at h
      simp only [except_ok_bind, pure, Except.pure, Except.ok.injEq,
        Prod.mk.injEq] at h
      obtain ⟨h1, h2⟩ := h
      exact ⟨by rw [← h1], h2.symm⟩

/-- C9 counterexample: the enricher does mutate the holdings table it
received — on a one-row table the call returns the received table object
with the enrichment columns now filled in, so the received table no longer
equals its pre-call contents. -/
theorem enricher_mutation_cex :
    (fetchAndEnrich mutMarket mutTable).map Prod.fst ≠ .ok mutTable := by
  intro h
  have h2 : (fetchAndEnrich mutMarket mutTable).map Prod.fst
      = .ok [⟨⟨"SPY", 1⟩, some ⟨100, none, 0, 0, "USD"⟩⟩] := by rfl
  rw [h2] at h
  simp [mutTable] at h

/-- C9 (amended): the enricher writes the enrichment columns into the
received table in place (so the table is extended, not left untouched),
but every original holdings column survives unchanged: the holdings
projection of the returned table equals that of the received table.  The
forecaster reads the stored series without altering their values (its only
in-place write re-assigns the series index to its datetime-normalized
form, the identity on the already-normalized index the fetch step
produces). -/
theorem enrich_preserves_holdings (m : Market) (t t' : List PRow)
    (store : List (String × List (ℕ × ℚ)))
    (h : fetchAndEnrich m t = .ok (t', store)) :
    t'.map PRow.holding = t.map PRow.holding := by
  have he := (fetchAndEnrich_ok m t t' store h).1
  apply List.ext_getElem?
  intro i
  rw [List.getElem?_map, List.getElem?_map, enrichGo_getElem? m _ t t' he i,
    Option.map_map]
  cases t[i]? with
  | none => rfl
  | some r =>
      simp only [Option.map_some', Function.comp_apply, Option.some.injEq]
      by_cases hm : r.holding.symbol ∈ t.map (fun r => r.holding.symbol)
      · rw [if_pos hm]
      · rw [if_neg hm]

/-- C9 witness: on the one-row fixture the returned table carries the same
holdings columns as the received table. -/
theorem enrich_preserves_holdings_witness :
    ([⟨⟨"SPY", 1⟩, some ⟨100, none, 0, 0, "USD"⟩⟩] : List PRow).map PRow.holding
      = mutTable.map PRow.holding :=
  enrich_preserves_holdings mutMarket mutTable
    [⟨⟨"SPY", 1⟩, some ⟨100, none, 0, 0, "USD"⟩⟩]
    (buildStore mutMarket (mutTable.map (fun r => r.holding.symbol)))
    (by rfl)

/-- The merge keeps one output row per holdings row. -/
theorem saveGo_length (preds : List Pred) :
    ∀ (rows : List PRow) (i : ℕ), (saveGo preds i rows).length = rows.length := by
  intro rows
  induction rows with
  | nil => intro i; rfl
  | cons r rest ih =>
      intro i
      simp only [saveGo, List.length_cons, ih]

/-- Pointwise description of the merge: output row `j` is input row `j`
joined with the predictions entry for positional index `i + j`. -/
theorem saveGo_getElem? (preds : List Pred) :
    ∀ (rows : List PRow) (i j : ℕ),
      (saveGo preds i rows)[j]? = (rows[j]?).map (fun r => mkOut preds (i + j) r) := by
  intro rows
  induction rows with
  | nil => intro i j; simp [saveGo]
  | cons r rest ih =>
      intro i j
      cases j with
      | zero => simp [saveGo]
      | succ j =>
          simp only [saveGo, List.getElem?_cons_succ, ih (i + 1) j]
          have harith : i + 1 + j = i + (j + 1) := by omega
          rw [harith]

/-- Every enriched row's metrics are the metrics computed for its symbol,
a pure function of the symbol alone. -/
theorem enriched_metrics_of_symbol (m : Market) (t t' : List PRow)
    (he : enrichGo m (t.map (fun r => r.holding.symbol)) t = .ok t') :
    ∀ (k : ℕ) (rk : PRow), t'[k]? = some rk →
      rk.metrics = (computeMetrics m rk.holding.symbol).toOption := by
  intro k rk hk
  have hg := enrichGo_getElem? m _ t t' he k
  rw [hk] at hg
  cases htk : t[k]? with
  | none =>
      rw [htk] at hg
      exact absurd hg (by simp)
  | some r0 =>
      rw [htk] at hg
      have hr0 : r0 ∈ t := List.getElem?_mem htk
      have hmem : r0.holding.symbol ∈ t.map (fun r => r.holding.symbol) :=
        List.mem_map_of_mem _ hr0
      simp only [Option.map_some'] at hg
      rw [if_pos hmem] at hg
      have hrk := Option.some.inj hg
      rw [hrk]

/-- C5: for every holdings table (duplicate symbols included), forecasts
are joined back by original row position: the output predictions table has
exactly one row per input row, output row `i` is input row `i` merged with
the predictions entry of index `i`, and any two rows sharing a symbol
carry identical enriched metric values, computed from that symbol's single
series. -/
theorem duplicate_symbols_row_identity (m : Market)
    (fit : List ℚ → ℕ → Except PyErr (List ℚ)) (years : ℕ)
    (t t' : List PRow) (store : List (String × List (ℕ × ℚ))) (preds : List Pred)
    (h1 : fetchAndEnrich m t = .ok (t', store))
    (h2 : predictPortfolio m fit store t' years = .ok preds) :
    (savePredictions t' preds).length = t.length
    ∧ (∀ i : ℕ, (savePredictions t' preds)[i]? = (t'[i]?).map (mkOut preds i))
    ∧ (∀ (i j : ℕ) (ri rj : PRow), t'[i]? = some ri → t'[j]? = some rj →
        ri.holding.symbol = rj.holding.symbol → ri.metrics = rj.metrics) := by
  have he := (fetchAndEnrich_ok m t t' store h1).1
  refine ⟨?_, ?_, ?_⟩
  · unfold savePredictions
    rw [saveGo_length preds t' 0, enrichGo_length m _ t t' he]
  · intro i
    unfold savePredictions
    rw [saveGo_getElem? preds t' 0 i]
    simp
  · intro i j ri rj hi hj hsym
    rw [enriched_metrics_of_symbol m t t' he i ri hi,
      enriched_metrics_of_symbol m t t' he j rj hj, hsym]

/-- Horizon extraction from a constant forecast that is long enough
returns the constant. -/
theorem extract_replicate (v : ℚ) (n y p : ℕ) (h1 : 1 ≤ y * p)
    (hlt : y * p - 1 < n) :
    extractHorizon p (List.replicate n v) y = .ok v := by
  unfold extractHorizon iloc
  have hpy : pyIndex (List.replicate n v).length ((y * p : ℕ) - 1 : ℤ)
      = ((y * p : ℕ) - 1 : ℤ) := by
    unfold pyIndex
    rw [if_neg (by omega)]
  rw [hpy, List.length_replicate, if_pos (by omega),
    List.getD_eq_getElem?_getD, List.getElem?_replicate, if_pos (by omega)]
  rfl

/-- The prediction loop on an empty row list. -/
theorem predGo_nil (m : Market) (fit : List ℚ → ℕ → Except PyErr (List ℚ))
    (store : List (String × List (ℕ × ℚ))) (years i : ℕ) :
    predGo m fit store years i [] = .ok [] := rfl

/-- One step of the prediction loop on a row whose symbol misses the
store: the row is skipped. -/
theorem predGo_cons_miss (m : Market) (fit : List ℚ → ℕ → Except PyErr (List ℚ))
    (store : List (String × List (ℕ × ℚ))) (years i : ℕ) (r : PRow)
    (rest : List PRow)
    (hfind : (store.find? (fun e => e.1 == r.holding.symbol)).map Prod.snd = none) :
    predGo m fit store years i (r :: rest) = predGo m fit store years (i + 1) rest := by
  simp only [predGo]
  rw [hfind]

/-- One step of the prediction loop on a row whose symbol hits the store,
with every external stage succeeding. -/
theorem predGo_cons_hit (m : Market) (fit : List ℚ → ℕ → Except PyErr (List ℚ))
    (store : List (String × List (ℕ × ℚ))) (years i : ℕ) (r : PRow)
    (rest : List PRow) (series : List (ℕ × ℚ)) (f : List ℚ) (today : ℚ)
    (vals : List ℚ) (preds : List Pred)
    (hfind : (store.find? (fun e => e.1 == r.holding.symbol)).map Prod.snd
      = some series)
    (hfit : predictSarima fit series (years * 365) = .ok f)
    (htoday : iloc (series.map Prod.snd) (-1) = .ok today)
    (hvals : yearsToPredict.mapM (fun y => extractHorizon 365 f y) = .ok vals)
    (hrest : predGo m fit store years (i + 1) rest = .ok preds) :
    predGo m fit store years i (r :: rest)
      = .ok (⟨i, r.holding.symbol,
          (convertPreds m.fxClose (m.currencyOf r.holding.symbol) today vals).1.1,
          yearsToPredict.zip
            (convertPreds m.fxClose (m.currencyOf r.holding.symbol) today vals).1.2⟩
          :: preds) := by
  simp only [predGo]
  rw [hfind]
  simp only [hfit, except_ok_bind, htoday, hvals, hrest]

/-- Inversion of a successful prediction step on a row whose symbol hits
the store: every stage succeeded and the produced entry carries the row's
positional index. -/
theorem predGo_cons_hit_inv (m : Market) (fit : List ℚ → ℕ → Except PyErr (List ℚ))
    (store : List (String × List (ℕ × ℚ))) (years i : ℕ) (r : PRow)
    (rest : List PRow) (preds : List Pred) (series : List (ℕ × ℚ))
    (hfind : (store.find? (fun e => e.1 == r.holding.symbol)).map Prod.snd
      = some series)
    (h : predGo m fit store years i (r :: rest) = .ok preds) :
    ∃ f today vals preds',
      predictSarima fit series (years * 365) = .ok f
      ∧ iloc (series.map Prod.snd) (-1) = .ok today
      ∧ yearsToPredict.mapM (fun y => extractHorizon 365 f y) = .ok vals
      ∧ predGo m fit store years (i + 1) rest = .ok preds'
      ∧ preds = ⟨i, r.holding.symbol,
          (convertPreds m.fxClose (m.currencyOf r.holding.symbol) today vals).1.1,
          yearsToPredict.zip
            (convertPreds m.fxClose (m.currencyOf r.holding.symbol) today vals).1.2⟩
          :: preds' := by
  simp only [predGo] at h
  rw [hfind] at h
  cases hfit : predictSarima fit series (years * 365) with
  | error e =>
      simp only [hfit, except_error_bind] at h
      exact absurd h (by simp)
  | ok f =>
      simp only [hfit, except_ok_bind] at h
      cases htoday : iloc (series.map Prod.snd) (-1) with
      | error e =>
          simp only [htoday, except_error_bind] at h
          exact absurd h (by simp)
      | ok today =>
          simp only [htoday, except_ok_bind] at h
          cases hvals : yearsToPredict.mapM (fun y => extractHorizon 365 f y) with
          | error e =>
              simp only [hvals, except_error_bind] at h
              exact absurd h (by simp)
          | ok vals =>
              simp only [hvals, except_ok_bind] at h
              cases hrest : predGo m fit store years (i + 1) rest with
              | error e =>
                  simp only [hrest, except_error_bind] at h
                  exact absurd h (by simp)
              | ok preds' =>
                  simp only [hrest, except_ok_bind] at h
                  exact ⟨f, today, vals, preds', rfl, rfl, hvals, rfl,
                    (Except.ok.inj h).symm⟩

/-- Every predictions entry produced from row index `i` onwards has index
at least `i`. -/
theorem predGo_lb (m : Market) (fit : List ℚ → ℕ → Except PyErr (List ℚ))
    (store : List (String × List (ℕ × ℚ))) (years : ℕ) :
    ∀ (rows : List PRow) (i : ℕ) (preds : List Pred),
      predGo m fit store years i rows = .ok preds →
      ∀ p ∈ preds, i ≤ p.index := by
  intro rows
  induction rows with
  | nil =>
      intro i preds h p hp
      rw [predGo_nil] at h
      cases h
      simp at hp
  | cons r rest ih =>
      intro i preds h p hp
      cases hfind : (store.find? (fun e => e.1 == r.holding.symbol)).map Prod.snd with
      | none =>
          rw [predGo_cons_miss m fit store years i r rest hfind] at h
          exact le_trans (by omega) (ih (i + 1) preds h p hp)
      | some series =>
          obtain ⟨f, today, vals, preds', _, _, _, hrest, hpreds⟩ :=
            predGo_cons_hit_inv m fit store years i r rest preds series hfind h
          subst hpreds
          rcases List.mem_cons.mp hp with hhd | htl
          · rw [hhd]
          · exact le_trans (by omega) (ih (i + 1) preds' hrest p htl)

/-- Characterization of the predictions entry looked up for row `j` of the
remaining rows: a store miss leaves no entry at that positional index, a
store hit leaves exactly one, carrying the row's symbol. -/
theorem predGo_find (m : Market) (fit : List ℚ → ℕ → Except PyErr (List ℚ))
    (store : List (String × List (ℕ × ℚ))) (years : ℕ) :
    ∀ (rows : List PRow) (i : ℕ) (preds : List Pred),
      predGo m fit store years i rows = .ok preds →
      ∀ (j : ℕ) (r : PRow), rows[j]? = some r →
        ((store.find? (fun e => e.1 == r.holding.symbol)).map Prod.snd = none →
          preds.find? (fun p => p.index == i + j) = none)
        ∧ (∀ series,
            (store.find? (fun e => e.1 == r.holding.symbol)).map Prod.snd
              = some series →
            ∃ p : Pred, preds.find? (fun p => p.index == i + j) = some p
              ∧ p.symbol = r.holding.symbol ∧ p.index = i + j) := by
  intro rows
  induction rows with
  | nil =>
      intro i preds h j r hj
      simp at hj
  | cons r0 rest ih =>
      intro i preds h j r hj
      cases hfind0 : (store.find? (fun e => e.1 == r0.holding.symbol)).map Prod.snd with
      | none =>
          rw [predGo_cons_miss m fit store years i r0 rest hfind0] at h
          cases j with
          | zero =>
              have hr : r0 = r := by simpa using hj
              subst hr
              constructor
              · intro _
                apply List.find?_eq_none.mpr
                intro p hp
                have hle := predGo_lb m fit store years rest (i + 1) preds h p hp
                simp only [beq_iff_eq]
                omega
              · intro series hser
                rw [hser] at hfind0
                exact absurd hfind0 (by simp)
          | succ j =>
              have hrec := ih (i + 1) preds h j r (by simpa using hj)
              rw [show i + 1 + j = i + (j + 1) by omega] at hrec
              exact hrec
      | some series0 =>
          obtain ⟨f, today, vals, preds', hfit, htoday, hvals, hrest, hpreds⟩ :=
            predGo_cons_hit_inv m fit store years i r0 rest preds series0 hfind0 h
          subst hpreds
          cases j with
          | zero =>
              have hr : r0 = r := by simpa using hj
              subst hr
              constructor
              · intro hnone
                rw [hnone] at hfind0
                exact absurd hfind0 (by simp)
              · intro series hser
                refine ⟨_, List.find?_cons_of_pos _ (by simp), rfl, by simp⟩
          | succ j =>
              have hrec := ih (i + 1) preds' hrest j r (by simpa using hj)
              rw [show i + 1 + j = i + (j + 1) by omega] at hrec
              have hne : ¬ ((⟨i, r0.holding.symbol,
                  (convertPreds m.fxClose (m.currencyOf r0.holding.symbol) today vals).1.1,
                  yearsToPredict.zip
                    (convertPreds m.fxClose (m.currencyOf r0.holding.symbol) today vals).1.2⟩
                    : Pred).index == i + (j + 1)) = true := by
                simp only [beq_iff_eq]
                omega
              constructor
              · intro hnone
                rw [@List.find?_cons_of_neg Pred (fun q => q.index == i + (j + 1)) _ _ hne]
                exact hrec.1 hnone
              · intro series hser
                obtain ⟨p, hp, hsym, hidx⟩ := hrec.2 series hser
                refine ⟨p, ?_, hsym, hidx⟩
                rw [@List.find?_cons_of_neg Pred (fun q => q.index == i + (j + 1)) _ _ hne]
                exact hp

/-- C5 witness: the AAA/AAA/BBB fixture yields a three-row predictions
table, and both AAA rows carry the same enriched metrics. -/
theorem duplicate_symbols_row_identity_witness :
    (savePredictions dupEnriched dupPreds).length = dupTable.length
    ∧ (⟨⟨"AAA", 10⟩, some dupMetrics⟩ : PRow).metrics
        = (⟨⟨"AAA", 5⟩, some dupMetrics⟩ : PRow).metrics := by
  have hvals : yearsToPredict.mapM
      (fun y => extractHorizon 365 (List.replicate 1825 (2 : ℚ)) y) = .ok [2, 2] := by
    simp only [yearsToPredict, List.mapM_cons, List.mapM_nil,
      extract_replicate 2 1825 1 365 (by norm_num) (by norm_num),
      extract_replicate 2 1825 5 365 (by norm_num) (by norm_num)]
    rfl
  have step3 : predGo dupMarket (constFit 2) dupStore 5 2
      [⟨⟨"BBB", 20⟩, some dupMetrics⟩] = .ok [⟨2, "BBB", 4, [(1, 2), (5, 2)]⟩] := by
    rw [predGo_cons_hit dupMarket (constFit 2) dupStore 5 2
      ⟨⟨"BBB", 20⟩, some dupMetrics⟩ [] [(0, 4)]
      (List.replicate 1825 2) 4 [2, 2] [] rfl rfl rfl hvals
      (predGo_nil _ _ _ _ _)]
    rfl
  have step2 : predGo dupMarket (constFit 2) dupStore 5 1
      [⟨⟨"AAA", 5⟩, some dupMetrics⟩, ⟨⟨"BBB", 20⟩, some dupMetrics⟩]
      = .ok [⟨1, "AAA", 4, [(1, 2), (5, 2)]⟩, ⟨2, "BBB", 4, [(1, 2), (5, 2)]⟩] := by
    rw [predGo_cons_hit dupMarket (constFit 2) dupStore 5 1
      ⟨⟨"AAA", 5⟩, some dupMetrics⟩ [⟨⟨"BBB", 20⟩, some dupMetrics⟩] [(0, 4)]
      (List.replicate 1825 2) 4 [2, 2] [⟨2, "BBB", 4, [(1, 2), (5, 2)]⟩]
      rfl rfl rfl hvals step3]
    rfl
  have h2 : predictPortfolio dupMarket (constFit 2) dupStore dupEnriched 5
      = .ok dupPreds := by
    unfold predictPortfolio dupEnriched dupPreds
    rw [predGo_cons_hit dupMarket (constFit 2) dupStore 5 0
      ⟨⟨"AAA", 10⟩, some dupMetrics⟩
      [⟨⟨"AAA", 5⟩, some dupMetrics⟩, ⟨⟨"BBB", 20⟩, some dupMetrics⟩] [(0, 4)]
      (List.replicate 1825 2) 4 [2, 2]
      [⟨1, "AAA", 4, [(1, 2), (5, 2)]⟩, ⟨2, "BBB", 4, [(1, 2), (5, 2)]⟩]
      rfl rfl rfl hvals step2]
    rfl
  have h := duplicate_symbols_row_identity dupMarket (constFit 2) 5 dupTable
      dupEnriched dupStore dupPreds (by rfl) h2
  exact ⟨h.1, h.2.2 0 1 _ _ rfl rfl rfl⟩

/-- Evaluation of the two horizon extractions on a constant forecast of
1825 daily steps. -/
theorem mapM_extract_replicate (v : ℚ) :
    yearsToPredict.mapM
      (fun y => extractHorizon 365 (List.replicate 1825 v) y) = .ok [v, v] := by
  simp only [yearsToPredict, List.mapM_cons, List.mapM_nil,
    extract_replicate v 1825 1 365 (by norm_num) (by norm_num),
    extract_replicate v 1825 5 365 (by norm_num) (by norm_num)]
  rfl

/-- C2 counterexample: an empty-history fetch (the `DataUnavailable` case)
for the first instrument makes `fetch_and_enrich_etf_data` raise
`IndexError` at `data['Close'].iloc[-1]`; the exception propagates out of
the call — the run is aborted and no instrument, the healthy "BBB"
included, receives enrichment or a forecast. -/
theorem fetch_failure_aborts_cex :
    fetchAndEnrich abortMarket twoRowTable = .error .indexError := by rfl

/-- C2 (amended): only a symbol missing from the in-memory `etf_data`
store at prediction time is an isolated failure: its row is still emitted,
with null forecast fields, via the left merge, and every store-hit row
receives a predictions entry carrying its symbol; by contrast an exception
during the fetch/enrich loop or the model fit propagates (as the
counterexample shows) and aborts the whole run. -/
theorem missing_symbol_isolated (m : Market)
    (fit : List ℚ → ℕ → Except PyErr (List ℚ))
    (store : List (String × List (ℕ × ℚ))) (rows : List PRow) (years : ℕ)
    (preds : List Pred)
    (h : predictPortfolio m fit store rows years = .ok preds) :
    (savePredictions rows preds).length = rows.length
    ∧ (∀ (i : ℕ) (r : PRow), rows[i]? = some r →
        (savePredictions rows preds)[i]? = some (mkOut preds i r)
        ∧ ((store.find? (fun e => e.1 == r.holding.symbol)).map Prod.snd = none →
            (mkOut preds i r).today = none
            ∧ (mkOut preds i r).horizons = yearsToPredict.map (fun y => (y, none)))
        ∧ (∀ series,
            (store.find? (fun e => e.1 == r.holding.symbol)).map Prod.snd
              = some series →
            ∃ p : Pred, (mkOut preds i r).today = some p.today
              ∧ p.symbol = r.holding.symbol)) := by
  refine ⟨saveGo_length preds rows 0, ?_⟩
  intro i r hi
  have hfind := predGo_find m fit store years rows 0 preds h i r hi
  simp only [Nat.zero_add] at hfind
  refine ⟨?_, ?_, ?_⟩
  · unfold savePredictions
    rw [saveGo_getElem? preds rows 0 i, hi]
    simp
  · intro hnone
    have h1 := hfind.1 hnone
    unfold mkOut
    rw [h1]
    exact ⟨rfl, rfl⟩
  · intro series hser
    obtain ⟨p, hp, hsym, _⟩ := hfind.2 series hser
    refine ⟨p, ?_, hsym⟩
    unfold mkOut
    rw [hp]

/-- C2 witness: with "AAA" absent from the store and "BBB" present, the
run completes, the output table has both rows, the "AAA" row carries a
null `today`, and the "BBB" row carries a predictions entry of its own
symbol. -/
theorem missing_symbol_isolated_witness :
    (savePredictions twoRowTable [⟨1, "BBB", 4, [(1, 2), (5, 2)]⟩]).length = 2
    ∧ (mkOut [⟨1, "BBB", 4, [(1, 2), (5, 2)]⟩] 0 ⟨⟨"AAA", 1⟩, none⟩).today = none
    ∧ ∃ p : Pred,
        (mkOut [⟨1, "BBB", 4, [(1, 2), (5, 2)]⟩] 1 ⟨⟨"BBB", 2⟩, none⟩).today
          = some p.today
        ∧ p.symbol = "BBB" := by
  have hstep1 : predGo dupMarket (constFit 2) oneStore 5 1 [⟨⟨"BBB", 2⟩, none⟩]
      = .ok [⟨1, "BBB", 4, [(1, 2), (5, 2)]⟩] := by
    rw [predGo_cons_hit dupMarket (constFit 2) oneStore 5 1 ⟨⟨"BBB", 2⟩, none⟩ []
      [(0, 4)] (List.replicate 1825 2) 4 [2, 2] [] rfl rfl rfl
      (mapM_extract_replicate 2) (predGo_nil _ _ _ _ _)]
    rfl
  have h : predictPortfolio dupMarket (constFit 2) oneStore twoRowTable 5
      = .ok [⟨1, "BBB", 4, [(1, 2), (5, 2)]⟩] := by
    unfold predictPortfolio twoRowTable
    rw [predGo_cons_miss dupMarket (constFit 2) oneStore 5 0 ⟨⟨"AAA", 1⟩, none⟩ _ rfl]
    exact hstep1
  have hmain := missing_symbol_isolated dupMarket (constFit 2) oneStore twoRowTable 5
      [⟨1, "BBB", 4, [(1, 2), (5, 2)]⟩] h
  have hA := hmain.2 0 ⟨⟨"AAA", 1⟩, none⟩ rfl
  have hB := hmain.2 1 ⟨⟨"BBB", 2⟩, none⟩ rfl
  exact ⟨hmain.1, (hA.2.1 rfl).1, hB.2.2 [(0, 4)] rfl⟩

/-- C3 counterexample: a 10-observation series (below the 24 observations
two seasonal cycles require) is resampled and handed straight to the
external fit; under a fit behaviour that returns a forecast, the function
returns that forecast — there is no `InsufficientHistory` failure, and no
minimum-history validation exists anywhere in the code. -/
theorem insufficient_history_cex :
    predictSarima naiveFit shortSeries 24 = .ok (List.replicate 24 1) := by rfl

/-- C3 (amended): the forecasting code performs no minimum-history check.
A series whose resampled length is below 24 observations flows through the
whole prediction loop: whenever the external fit succeeds and the
remaining stages succeed, the instrument's row receives a full predictions
entry rather than any `InsufficientHistory` failure. -/
theorem no_min_history_check (m : Market)
    (fit : List ℚ → ℕ → Except PyErr (List ℚ)) (sym : String)
    (series : List (ℕ × ℚ)) (q : ℚ) (f : List ℚ) (today : ℚ) (vals : List ℚ)
    (hobs : (resampleDaily series).length < 24)
    (hfit : fit (resampleDaily series) (5 * 365) = .ok f)
    (htoday : iloc (series.map Prod.snd) (-1) = .ok today)
    (hvals : yearsToPredict.mapM (fun y => extractHorizon 365 f y) = .ok vals) :
    predictPortfolio m fit [(sym, series)] [⟨⟨sym, q⟩, none⟩] 5
      = .ok [⟨0, sym,
          (convertPreds m.fxClose (m.currencyOf sym) today vals).1.1,
          yearsToPredict.zip
            (convertPreds m.fxClose (m.currencyOf sym) today vals).1.2⟩] := by
  unfold predictPortfolio
  rw [predGo_cons_hit m fit [(sym, series)] 5 0 ⟨⟨sym, q⟩, none⟩ [] series f
    today vals []
    (by rw [List.find?_cons_of_pos _ (by simp)]; rfl)
    hfit htoday hvals (predGo_nil _ _ _ _ _)]

/-- C3 witness: the 10-observation all-ones series, under the naive
constant fit, produces a predictions row with numeric values — not an
`InsufficientHistory` failure. -/
theorem no_min_history_check_witness :
    predictPortfolio dupMarket naiveFit [("SHT", shortSeries)]
      [⟨⟨"SHT", 1⟩, none⟩] 5 = .ok [⟨0, "SHT", 1, [(1, 1), (5, 1)]⟩] := by
  have h := no_min_history_check dupMarket naiveFit "SHT" shortSeries 1
      (List.replicate 1825 1) 1 [1, 1] (by decide) (by rfl) (by rfl)
      (mapM_extract_replicate 1)
  rw [h]
  rfl

/-- Splitting a fiberwise sum of a total-value column over any finite
superset of the occurring symbols. -/
theorem sum_fiber_filter (f : PredRow → ℚ) :
    ∀ (rows : List PredRow) (T : Finset String),
      (∀ r ∈ rows, r.symbol ∈ T) →
      (∑ s in T, ((rows.filter (fun r => r.symbol == s)).map f).sum)
        = (rows.map f).sum := by
  intro rows
  induction rows with
  | nil =>
      intro T _
      simp
  | cons r rest ih =>
      intro T hT
      have hr : r.symbol ∈ T := hT r (by simp)
      have hsplit : ∀ s : String,
          (((r :: rest).filter (fun x => x.symbol == s)).map f).sum
            = (if r.symbol = s then f r else 0)
              + ((rest.filter (fun x => x.symbol == s)).map f).sum := by
        intro s
        by_cases hs : r.symbol = s
        · simp [List.filter_cons, hs]
        · simp [List.filter_cons, hs]
      calc (∑ s in T, (((r :: rest).filter (fun x => x.symbol == s)).map f).sum)
          = ∑ s in T, ((if r.symbol = s then f r else 0)
              + ((rest.filter (fun x => x.symbol == s)).map f).sum) :=
            Finset.sum_congr rfl (fun s _ => hsplit s)
        _ = (∑ s in T, if r.symbol = s then f r else 0)
              + ∑ s in T, ((rest.filter (fun x => x.symbol == s)).map f).sum :=
            Finset.sum_add_distrib
        _ = f r + (rest.map f).sum := by
            rw [Finset.sum_ite_eq T r.symbol, if_pos hr,
              ih T (fun x hx => hT x (by simp [hx]))]
        _ = ((r :: rest).map f).sum := by simp

/-- The whole-portfolio total of a grouped column equals the plain sum of
that column over all rows. -/
theorem grandTotal_eq (rows : List PredRow) (f : PredRow → ℚ) :
    grandTotal rows f = (rows.map f).sum := by
  unfold grandTotal groupedCol
  have hnd : (rows.map PredRow.symbol).dedup.Nodup := List.nodup_dedup _
  have htf : (rows.map PredRow.symbol).dedup.toFinset
      = (rows.map PredRow.symbol).toFinset := by
    ext a
    simp [List.mem_toFinset, List.mem_dedup]
  rw [← List.sum_toFinset _ hnd, htf]
  exact sum_fiber_filter f rows _
    (fun r hr => List.mem_toFinset.2 (List.mem_map_of_mem _ hr))

/-- C8: each row's total value today is its quantity times its `today`
price (and likewise per horizon), and for every total-value column the
plain sum over all rows, the sum of the grouped per-symbol totals, and
the whole-portfolio `Total` row all coincide. -/
theorem aggregation_total_invariant (rows : List PredRow) :
    (∀ r ∈ rows, totalToday r = r.quantity * r.today
      ∧ totalYears1 r = r.quantity * r.y1
      ∧ totalYears5 r = r.quantity * r.y5)
    ∧ ((rows.map totalToday).sum = (groupedCol rows totalToday).sum
        ∧ (groupedCol rows totalToday).sum = grandTotal rows totalToday)
    ∧ ((rows.map totalYears1).sum = (groupedCol rows totalYears1).sum
        ∧ (groupedCol rows totalYears1).sum = grandTotal rows totalYears1)
    ∧ ((rows.map totalYears5).sum = (groupedCol rows totalYears5).sum
        ∧ (groupedCol rows totalYears5).sum = grandTotal rows totalYears5) :=
  ⟨fun r _ => ⟨rfl, rfl, rfl⟩,
    ⟨(grandTotal_eq rows totalToday).symm, rfl⟩,
    ⟨(grandTotal_eq rows totalYears1).symm, rfl⟩,
    ⟨(grandTotal_eq rows totalYears5).symm, rfl⟩⟩

/-- C8 witness: on the concrete three-row table with a repeated symbol,
the grouped total equals the plain row total, and the first row's
`Total Today` cell is its quantity times its price. -/
theorem aggregation_total_invariant_witness :
    (aggRows.map totalToday).sum = (groupedCol aggRows totalToday).sum
    ∧ totalToday ⟨"AAA", 2, 10, 11, 12⟩ = 2 * 10 := by
  have h := aggregation_total_invariant aggRows
  exact ⟨h.2.1.1, (h.1 ⟨"AAA", 2, 10, 11, 12⟩ (by simp [aggRows])).1⟩

/-- C10: for a nonempty monthly frame and a fit routine returning one
value per requested step (the library contract of `forecast(steps)`),
`predict_future_prices` returns a frame of `horizon * 12 + 1` rows whose
index starts at the last observed month; every forecast column has the
same `horizon * 12 + 1` cells, its first cell (at the last observed month)
is null, and every later cell holds a forecast value — the model's
forecast index starts one month after the last observation while the
output index starts at it. -/
theorem predict_future_prices_shape (fit : List ℚ → ℕ → List ℚ)
    (df : MonthlyDF) (horizon : ℕ) (hne : df.index ≠ [])
    (hfit : ∀ v : List ℚ, (fit v (horizon * 12)).length = horizon * 12) :
    (predictFuturePrices fit df horizon).1.length = horizon * 12 + 1
    ∧ (predictFuturePrices fit df horizon).1[0]? = some (df.index.getLastD 0)
    ∧ ∀ c ∈ (predictFuturePrices fit df horizon).2,
        c.2.length = horizon * 12 + 1
        ∧ c.2[0]? = some none
        ∧ ∀ k : ℕ, 1 ≤ k → k < horizon * 12 + 1 →
            ∃ v : ℚ, c.2[k]? = some (some v) := by
  refine ⟨?_, ?_, ?_⟩
  · simp [predictFuturePrices]
  · simp [predictFuturePrices, List.getElem?_map, List.getElem?_range]
  · intro c hc
    unfold predictFuturePrices at hc
    simp only [List.mem_map] at hc
    obtain ⟨c0, hc0, hceq⟩ := hc
    subst hceq
    refine ⟨by simp, ?_, ?_⟩
    · simp [List.getElem?_map, List.getElem?_range]
    · intro k hk1 hk2
      have hklt : k - 1 < (fit c0.2 (horizon * 12)).length := by
        rw [hfit]
        omega
      refine ⟨(fit c0.2 (horizon * 12)).get ⟨k - 1, hklt⟩, ?_⟩
      simp only [List.getElem?_map, List.getElem?_range, hk2, if_true,
        Option.map_some']
      rw [if_neg (by omega), List.getElem?_eq_getElem hklt]
      rfl

set_option maxRecDepth 4000 in
/-- C10 witness: a three-month frame with one price column, forecast 15
years ahead under a constant monthly fit, yields a 181-row frame starting
at month 2, and the column's first cell is null. -/
theorem predict_future_prices_shape_witness :
    (predictFuturePrices monthlyFit monthlyDF 15).1.length = 181
    ∧ (predictFuturePrices monthlyFit monthlyDF 15).1[0]? = some 2
    ∧ ((predictFuturePrices monthlyFit monthlyDF 15).2.map
        (fun c => c.2[0]?)) = [some none] := by
  have h := predict_future_prices_shape monthlyFit monthlyDF 15
      (by simp [monthlyDF])
      (fun v => by unfold monthlyFit; exact List.length_replicate _ _)
  refine ⟨h.1.trans (by norm_num), h.2.1.trans (by rfl), ?_⟩
  rfl

end ETFPerf
